import Mathlib

/-!
Verification of the dashboard cache / cascading-filter core

Shallow embedding of the TypeScript sources of the `dashobard-hook`
repository:

* `src/client/src/lib/cache.ts` — `FrontendCache` (client cache layer)
* `src/server/services/database.ts` — `CacheManager` (server cache layer),
  `debounce`
* `src/server/routes.ts` — the `POST /api/dashboard/getBusiness` handler
* `src/unnamed/part_001` — `useDashboardData` (filter state, debounced
  cascades, `refreshData`)
* `src/unnamed/part_002` — `debounce`, `fetchData`, `refreshAllData`

JavaScript `Map` objects are modelled as association lists in insertion
order (a `Map.set` of an existing key updates the value in place, keeping
the key's original position; a new key is appended).  Timestamps are epoch
milliseconds as `Nat`.
-/

namespace Dashboard

/-! Section: JavaScript `Map` model -/

/-- JS `Map.get`: value of the first (and, for well-formed maps, only) entry
with the given key. -/
def mapGet {β : Type} (k : String) : List (String × β) → Option β
  | [] => none
  | (k', v) :: rest => if k' = k then some v else mapGet k rest

/-- JS `Map.set`: update in place if the key is present (keeping insertion
order), otherwise append. -/
def mapSet {β : Type} (k : String) (v : β) (l : List (String × β)) :
    List (String × β) :=
  if l.any (fun p => decide (p.1 = k)) then
    l.map (fun p => if p.1 = k then (k, v) else p)
  else l ++ [(k, v)]

/-- JS `Map.delete`: remove the entry with the given key. -/
def mapDelete {β : Type} (k : String) (l : List (String × β)) :
    List (String × β) :=
  l.filter (fun p => decide (p.1 ≠ k))

/-- The keys of a map, in insertion order. -/
def mapKeys {β : Type} (l : List (String × β)) : List String :=
  l.map Prod.fst

/-! Section: `FrontendCache` (src/client/src/lib/cache.ts)

The client cache stores `CacheItem`s and counts hits and misses.  Each
`set` also schedules a `setTimeout(() => this.cache.delete(key), ttl)`
whose handle is never kept, so it can never be cancelled; we record those
pending deletions in a `timers` list of `(fire time, key)` pairs. -/

structure CacheItem (V : Type) where
  data : V
  timestamp : Nat
  ttl : Nat
deriving Repr, DecidableEq

structure FrontendCache (V : Type) where
  cache : List (String × CacheItem V)
  hits : Nat
  misses : Nat
  timers : List (Nat × String)
deriving Repr, DecidableEq

namespace FrontendCache

def empty {V : Type} : FrontendCache V := ⟨[], 0, 0, []⟩

/-- Method `set(key, data, ttl = 300000)` evaluated at time `now`. -/
def set {V : Type} (c : FrontendCache V) (now : Nat) (key : String)
    (data : V) (ttl : Nat := 300000) : FrontendCache V :=
  { c with
    cache := mapSet key ⟨data, now, ttl⟩ c.cache
    timers := c.timers ++ [(now + ttl, key)] }

/-- Method `get(key)` evaluated at time `now`: absent keys and expired entries
(`now - item.timestamp > item.ttl`) count a miss, the latter are removed
lazily; live entries count a hit. -/
def get {V : Type} (c : FrontendCache V) (now : Nat) (key : String) :
    Option V × FrontendCache V :=
  match mapGet key c.cache with
  | none => (none, { c with misses := c.misses + 1 })
  | some item =>
    if now - item.timestamp > item.ttl then
      (none, { c with cache := mapDelete key c.cache, misses := c.misses + 1 })
    else
      (some item.data, { c with hits := c.hits + 1 })

/-- Method `has(key)` evaluated at time `now`: same presence/expiry test as
`get`, including the lazy removal of an expired entry, but it touches no
hit/miss counter. -/
def has {V : Type} (c : FrontendCache V) (now : Nat) (key : String) :
    Bool × FrontendCache V :=
  match mapGet key c.cache with
  | none => (false, c)
  | some item =>
    if now - item.timestamp > item.ttl then
      (false, { c with cache := mapDelete key c.cache })
    else
      (true, c)

/-- Method `clear()`: empties the map and resets both counters.  Pending
`setTimeout` deletions are untouched (their handles were never kept). -/
def clear {V : Type} (c : FrontendCache V) : FrontendCache V :=
  { cache := [], hits := 0, misses := 0, timers := c.timers }

/-- One pending `setTimeout(() => this.cache.delete(key), ttl)` firing:
it deletes whatever entry currently sits under the key, unconditionally. -/
def fireTimer {V : Type} (c : FrontendCache V) (t : Nat × String) :
    FrontendCache V :=
  { c with cache := mapDelete t.2 c.cache, timers := c.timers.erase t }

structure Stats where
  size : Nat
  hits : Nat
  misses : Nat
  hitRate : ℚ
deriving Repr, DecidableEq

/-- Method `getStats()`: `hitRate` is `(hits / (hits + misses)) * 100`, defined
as `0` when there has been no access yet. -/
def getStats {V : Type} (c : FrontendCache V) : Stats :=
  { size := c.cache.length
    hits := c.hits
    misses := c.misses
    hitRate :=
      if c.hits + c.misses > 0 then
        (c.hits : ℚ) / ((c.hits : ℚ) + (c.misses : ℚ)) * 100
      else 0 }

end FrontendCache

/-! Section: `CacheManager` (src/server/services/database.ts)

The server cache keeps two maps, `cache : key → value` and
`ttl : key → expiry` where `expiry = Date.now() + ttl` at the time of the
`set`.  `maxSize` is fixed to `1000` by the constructor; when the cache is
full, `set` evicts the first key in insertion order
(`this.cache.keys().next().value`) before inserting. -/

structure CacheManager (V : Type) where
  cache : List (String × V)
  ttl : List (String × Nat)
  maxSize : Nat
deriving Repr, DecidableEq

namespace CacheManager

/-- The constructor: empty maps, `maxSize = 1000`. -/
def empty {V : Type} : CacheManager V := ⟨[], [], 1000⟩

/-- Method `set(key, value, ttl = 300000)` at time `now`: if
`cache.size >= maxSize`, delete the first inserted key from both maps,
then store the value and the absolute expiry `now + ttl`. -/
def set {V : Type} (c : CacheManager V) (now : Nat) (key : String)
    (value : V) (ttl : Nat := 300000) : CacheManager V :=
  let c1 :=
    if c.cache.length ≥ c.maxSize then
      match c.cache.head? with
      | some p =>
        { c with cache := mapDelete p.1 c.cache, ttl := mapDelete p.1 c.ttl }
      | none => c
    else c
  { c1 with
    cache := mapSet key value c1.cache
    ttl := mapSet key (now + ttl) c1.ttl }

/-- Method `get(key)` at time `now`: absent keys return `null`; an entry whose
expiry has strictly passed (`Date.now() > expiry`) is removed from both
maps and `null` is returned; otherwise the value is returned.  A missing
`ttl` entry makes the JS comparison `now > undefined` false, so the value
is returned. -/
def get {V : Type} (c : CacheManager V) (now : Nat) (key : String) :
    Option V × CacheManager V :=
  match mapGet key c.cache with
  | none => (none, c)
  | some v =>
    match mapGet key c.ttl with
    | none => (some v, c)
    | some expiry =>
      if now > expiry then
        (none, { c with cache := mapDelete key c.cache, ttl := mapDelete key c.ttl })
      else (some v, c)

/-- Method `delete(key)`: removes the key from both maps. -/
def delete {V : Type} (c : CacheManager V) (key : String) : CacheManager V :=
  { c with cache := mapDelete key c.cache, ttl := mapDelete key c.ttl }

/-- Method `clear()`: empties both maps. -/
def clear {V : Type} (c : CacheManager V) : CacheManager V :=
  { c with cache := [], ttl := [] }

/-- Whether the `ttl` map marks `key` as expired at time `now`. -/
def expiredAt {V : Type} (c : CacheManager V) (now : Nat) (key : String) :
    Bool :=
  match mapGet key c.ttl with
  | some expiry => decide (now > expiry)
  | none => false

/-- The periodic `cleanup()`: removes every entry whose expiry has
strictly passed from both maps. -/
def cleanup {V : Type} (c : CacheManager V) (now : Nat) : CacheManager V :=
  { c with
    cache := c.cache.filter (fun p => ! c.expiredAt now p.1)
    ttl := c.ttl.filter (fun q => ! decide (now > q.2)) }

end CacheManager

/-- The states of the server cache reachable from the constructor through
its public operations (`has` delegates to `get` and adds no new state). -/
inductive CMReachable {V : Type} : CacheManager V → Prop
  | init : CMReachable CacheManager.empty
  | set {c now key value ttl} : CMReachable c →
      CMReachable (c.set now key value ttl)
  | get {c : CacheManager V} {now key} : CMReachable c →
      CMReachable (c.get now key).2
  | delete {c key} : CMReachable c → CMReachable (c.delete key)
  | clear {c} : CMReachable c → CMReachable c.clear
  | cleanup {c now} : CMReachable c → CMReachable (c.cleanup now)

/-! Section: `debounce` (src/unnamed/part_002, lines 10 to 20)

```js
const debounce = (func, wait) => {
  let timeout;
  return function executedFunction(...args) {
    const later = () => { clearTimeout(timeout); func(...args); };
    clearTimeout(timeout);
    timeout = setTimeout(later, wait);
  };
};
```

Trailing-edge debounce on a single-threaded event loop: each call clears
the pending timer and schedules `func` with the current arguments at
`now + wait`; the timer fires unless a further call arrives strictly
before its due time.  `debounceRun` takes the calls as a time-sorted
`(time, args)` list and returns the `(fire time, args)` invocations of
the underlying function. -/

def debounceRun {A : Type} (wait : Nat) : List (Nat × A) → List (Nat × A)
  | [] => []
  | [(t, v)] => [(t + wait, v)]
  | (t, v) :: (t', v') :: rest =>
    if t' < t + wait then debounceRun wait ((t', v') :: rest)
    else (t + wait, v) :: debounceRun wait ((t', v') :: rest)

/-! Section: filter state and cascades (src/unnamed/part_001)

`useDashboardData` holds the six-level filter state; the debounced
vertical update resets `business` and `site` and touches no cache entry.
The business query is `enabled` only for a non-empty vertical different
from the sentinel `"All"`, with react-query key
`['business', bucketId, userId, filters.vertical]`. -/

structure FilterState where
  vertical : String
  business : String
  site : String
  year : String
  month : String
  date : String
deriving Repr, DecidableEq

/-- The client-side session: the filter hierarchy plus the page-wide
`frontendCache` of option lists. -/
structure ClientState where
  filters : FilterState
  cache : FrontendCache (List String)
deriving DecidableEq

/-- Effect of `debouncedUpdateBusiness(vertical)` once its debounce window
elapses: if the value changed, set `vertical` and clear `business` and
`site`; the cache is not touched. -/
def debouncedUpdateBusinessEffect (s : ClientState) (v : String) :
    ClientState :=
  if v ≠ s.filters.vertical then
    { s with filters := { s.filters with vertical := v, business := "", site := "" } }
  else s

/-- The react-query key of the business-options query:
`['business', bucketId, userId, filters.vertical]`. -/
def businessQueryKey (bucketId userId : Nat) (vertical : String) :
    String × Nat × Nat × String :=
  ("business", bucketId, userId, vertical)

/-- The `enabled` flag of the business-options query:
`!!filters.vertical && filters.vertical !== 'All'`. -/
def businessQueryEnabled (vertical : String) : Bool :=
  vertical ≠ "" && vertical ≠ "All"

/-! Section: refresh actions (src/unnamed/part_001 `refreshData`,
src/unnamed/part_002 `refreshAllData` / `fetchData`) -/

/-- The five option-list levels of the dashboard. -/
inductive Level where
  | vertical | business | site | years | months
deriving Repr, DecidableEq

/-- Client plus server cache layers, as seen by a refresh action. -/
structure SystemState where
  clientCache : FrontendCache (List String)
  serverCache : CacheManager (List String)
deriving DecidableEq

/-- Action `refreshData` of `useDashboardData`: clears the client
`frontendCache` and re-fetches `business`, `site` and `months` (in that
order); no request clears the server cache, which has no clear endpoint. -/
def refreshData (s : SystemState) : SystemState × List Level :=
  ({ s with clientCache := s.clientCache.clear },
   [Level.business, Level.site, Level.months])

/-- The levels `refreshAllData` of the page component re-fetches
concurrently (`Promise.all`): always `vertical` and `years`, plus the
dependent levels whose parent filter is set and not the `"All"`
sentinel (`months` needs only a non-empty year). -/
def refreshAllLevels (f : FilterState) : List Level :=
  [Level.vertical, Level.years]
    ++ (if f.vertical ≠ "" ∧ f.vertical ≠ "All" then [Level.business] else [])
    ++ (if f.business ≠ "" ∧ f.business ≠ "All" then [Level.site] else [])
    ++ (if f.year ≠ "" then [Level.months] else [])

/-- Per-level slice of the page state (`data`, `loading`, `cached`). -/
structure LevelState where
  data : List String
  loading : Bool
  cached : Bool
deriving Repr, DecidableEq

/-- Completion of one `fetchData(type, ...)` call of the page component
with the given outcome: on success it stores the rows and the
cache-indicator, on failure (caught inside `fetchData`) it empties the
rows; either way `finally` clears the level's loading flag and no other
level's slice is touched. -/
def fetchDataStep (st : Level → LevelState) (l : Level)
    (outcome : Except String (List String × Bool)) : Level → LevelState :=
  fun l2 =>
    if l2 = l then
      match outcome with
      | .ok (rows, fromCache) => { data := rows, loading := false, cached := fromCache }
      | .error _ => { data := [], loading := false, cached := (st l).cached }
    else st l2

/-! Section: the `POST /api/dashboard/getBusiness` handler (src/server/routes.ts)

Relational model of the tables the handler queries, and of the two SQL
shapes it runs.  `SELECT DISTINCT … ORDER BY … ASC` is modelled by
deduplication followed by an ascending insertion sort. -/

structure Vertical where
  vid : Nat
  vname : String
  vstatus : String
deriving Repr, DecidableEq

structure Business where
  buid : Nat
  buname : String
  vid : Nat
  bustatus : String
deriving Repr, DecidableEq

structure AnalyticsGroup where
  groupId : Nat
  levelName : String
deriving Repr, DecidableEq

structure UserGroupRow where
  userid : Nat
  buid : Nat
deriving Repr, DecidableEq

structure Db where
  verticals : List Vertical
  businesses : List Business
  analyticsGroups : List AnalyticsGroup
  usergroups : List UserGroupRow
deriving Repr, DecidableEq

/-- Ascending insertion of a string into a sorted list. -/
def insertAsc (x : String) : List String → List String
  | [] => [x]
  | y :: ys => if x ≤ y then x :: y :: ys else y :: insertAsc x ys

/-- Ascending insertion sort. -/
def sortAsc (l : List String) : List String := l.foldr insertAsc []

/-- Semantics of `SELECT DISTINCT ... ORDER BY ... ASC`. -/
def distinctSorted (l : List String) : List String := sortAsc l.dedup

/-- The group-security query of the handler:
`SELECT DISTINCT B.BUNAME FROM BUSINESS B JOIN VERTICAL V ON B.VID = V.VID
WHERE V.VNAME = @vertical AND B.BUSTATUS = 'ACTIVE' ORDER BY B.BUNAME ASC`.
The vertical name is matched literally; there is no special case for
`"All"`. -/
def activeBusinessesForVertical (db : Db) (vertical : String) :
    List String :=
  distinctSorted
    ((db.businesses.filter (fun b =>
        decide (b.bustatus = "ACTIVE") &&
          db.verticals.any (fun v =>
            decide (v.vid = b.vid ∧ v.vname = vertical)))).map (·.buname))

/-- Modelled from the spec: the "unrestricted full business list for the
caller's authorization scope" that the sentinel-handling sentence promises
for `vertical = "All"` on the group-security scope — every active
business, with no vertical restriction.  This definition follows the
spec's words (no matching query exists in the handler) and is used only to
compare against the query the code actually runs. -/
def unrestrictedBusinessListSpec (db : Db) : List String :=
  distinctSorted
    ((db.businesses.filter (fun b => decide (b.bustatus = "ACTIVE"))).map
      (·.buname))

/-- Query `SELECT DISTINCT BUID FROM USERGROUPS WHERE USERID = @userId`. -/
def userBuids (db : Db) (userId : Nat) : List Nat :=
  ((db.usergroups.filter (fun r => decide (r.userid = userId))).map
    (·.buid)).dedup

/-- The per-user query of the handler: as the group-security query, plus
`AND BUID IN (buidList)`. -/
def perUserBusinessQuery (db : Db) (buids : List Nat) (vertical : String) :
    List String :=
  distinctSorted
    ((db.businesses.filter (fun b =>
        decide (b.bustatus = "ACTIVE") &&
          db.verticals.any (fun v =>
            decide (v.vid = b.vid ∧ v.vname = vertical)) &&
          buids.contains b.buid)).map (·.buname))

/-- The group-lookup deciding which query shape runs:
`groupResult.length > 0 && groupResult[0].ANALYTICS_GROUP_LEVEL_NAME ===
"GROUP SECURITY"`. -/
def isGroupSecurity (db : Db) (bucketId : Nat) : Bool :=
  match (db.analyticsGroups.filter (fun g => decide (g.groupId = bucketId))).head? with
  | some g => g.levelName == "GROUP SECURITY"
  | none => false

/-- An HTTP outcome of a route handler. -/
inductive HttpResult (α : Type) where
  | ok (data : α) (cached : Bool)
  | err (status : Nat) (body : String)
deriving Repr, DecidableEq

/-- The cache key of the handler:
`business_` + bucketId + `_` + userId + `_` + vertical. -/
def businessCacheKey (bucketId userId : Nat) (vertical : String) : String :=
  "business_" ++ toString bucketId ++ "_" ++ toString userId ++ "_" ++ vertical

/-- Handler of `POST /api/dashboard/getBusiness`: consult the server
cache; on a miss, run the group-security query when the bucket's group
level is `"GROUP SECURITY"`, otherwise collect the user's BUIDs and either
run the per-user query or answer
`404 {error: 'No matching BUID found'}` when there are none; successful
fresh results are cached for 300000 ms. -/
def getBusinessRoute (st : CacheManager (List String)) (now : Nat)
    (db : Db) (bucketId userId : Nat) (vertical : String) :
    HttpResult (List String) × CacheManager (List String) :=
  let key := businessCacheKey bucketId userId vertical
  match (st.get now key).1 with
  | some d => (.ok d true, (st.get now key).2)
  | none =>
    let st1 := (st.get now key).2
    if isGroupSecurity db bucketId then
      let data := activeBusinessesForVertical db vertical
      (.ok data false, st1.set now key data 300000)
    else
      let buids := userBuids db userId
      if buids.length > 0 then
        let data := perUserBusinessQuery db buids vertical
        (.ok data false, st1.set now key data 300000)
      else (.err 404 "No matching BUID found", st1)

/-! Section: helper lemmas about the `Map` model -/

theorem mapGet_mapDelete {β : Type} (k : String) (l : List (String × β)) :
    mapGet k (mapDelete k l) = none := by
  induction l with
  | nil => rfl
  | cons p rest ih =>
    by_cases h : p.1 = k
    · simpa [mapDelete, List.filter_cons, h] using ih
    · simpa [mapDelete, List.filter_cons, h, mapGet] using ih

/-! Section: claims about the caches -/

/-- Example state for claim C1: a client cache holding one entry stored at
time `0` with `ttl = 100`, and a server cache holding one entry whose
stored expiry is `100`. -/
def fcAtExpiry : FrontendCache Nat := ⟨[("a", ⟨1, 0, 100⟩)], 0, 0, [(100, "a")]⟩

/-- Example server-cache state for claim C1. -/
def cmAtExpiry : CacheManager Nat := ⟨[("a", 1)], [("a", 100)], 1000⟩

/-- C1 (counterexample): the claim says an entry is already absent at the
exact instant `now = createdAt + ttl`.  In both cache layers the expiry
comparison is strict (`now - timestamp > ttl`, resp. `now > expiry`), so
at `now = createdAt + ttl = 100` the entry is still returned. -/
theorem ttl_expiry_at_instant_counterexample :
    (fcAtExpiry.get 100 "a").1 = some 1 ∧ 100 ≥ 0 + 100 ∧
      (cmAtExpiry.get 100 "a").1 = some 1 := by
  refine ⟨by decide, by omega, by decide⟩

/-- C1 (amended): in both cache layers, `get(key)` returns absent as soon
as `now` is strictly greater than `createdAt + ttl` (the expiry
comparison is `now > expiry`), even if no background sweep has run; at
the exact instant `now = createdAt + ttl` the entry is still returned. -/
theorem ttl_expiry_strict :
    (∀ (c : FrontendCache Nat) (now : Nat) (key : String)
        (item : CacheItem Nat), mapGet key c.cache = some item →
        item.timestamp + item.ttl < now → (c.get now key).1 = none)
    ∧ (∀ (c : CacheManager Nat) (now : Nat) (key : String) (e : Nat),
        mapGet key c.ttl = some e → e < now → (c.get now key).1 = none) := by
  constructor
  · intro c now key item h hlt
    simp only [FrontendCache.get, h]
    rw [if_pos (by omega : now - item.timestamp > item.ttl)]
  · intro c now key e h hlt
    cases hc : mapGet key c.cache with
    | none => simp [CacheManager.get, hc]
    | some v =>
      simp only [CacheManager.get, hc, h]
      rw [if_pos hlt]

/-- C1 (witness): the amended theorem applied to the example states one
millisecond past expiry. -/
theorem ttl_expiry_strict_witness :
    (fcAtExpiry.get 101 "a").1 = none ∧ (cmAtExpiry.get 101 "a").1 = none :=
  ⟨ttl_expiry_strict.1 fcAtExpiry 101 "a" ⟨1, 0, 100⟩ rfl (by decide),
   ttl_expiry_strict.2 cmAtExpiry 101 "a" 100 rfl (by decide)⟩

/-- The client cache after `set("a", 1); get("a"); get("b")` starting
from a fresh cache, all at time `0` (claim C6). -/
def c6seq : FrontendCache Nat :=
  ((((FrontendCache.empty).set 0 "a" 1).get 0 "a").2.get 0 "b").2

/-- C6: starting from zero hits and misses, `set(a,1); get(a); get(b)`
yields stats with `hits = 1`, `misses = 1`, `hitRate = 50`; and whenever
`hits + misses = 0`, `hitRate` is defined as `0` (no division by zero). -/
theorem hit_miss_accounting (c : FrontendCache Nat)
    (h : c.hits + c.misses = 0) :
    c6seq.getStats.hits = 1 ∧ c6seq.getStats.misses = 1 ∧
      c6seq.getStats.hitRate = 50 ∧ c.getStats.hitRate = 0 := by
  have h1 : c.hits = 0 := by omega
  have h2 : c.misses = 0 := by omega
  have hh : c6seq.hits = 1 := by decide
  have hm : c6seq.misses = 1 := by decide
  refine ⟨by decide, by decide, ?_, ?_⟩
  · simp only [FrontendCache.getStats, hh, hm]
    norm_num
  · simp [FrontendCache.getStats, h1, h2]

/-- C6 (witness): the theorem applied to the freshly constructed cache,
whose counters are zero. -/
theorem hit_miss_accounting_witness :
    c6seq.getStats.hits = 1 ∧ c6seq.getStats.misses = 1 ∧
      c6seq.getStats.hitRate = 50 ∧
      (FrontendCache.empty (V := Nat)).getStats.hitRate = 0 :=
  hit_miss_accounting FrontendCache.empty rfl

/-- C9: for every cache state, key and instant, `has(key)` returns `true`
exactly when `get(key)` would return a non-absent value at the same
instant, and `has` changes neither the hit nor the miss counter. -/
theorem has_iff_get_and_counts_nothing (c : FrontendCache Nat) (now : Nat)
    (key : String) :
    ((c.has now key).1 = true ↔ (c.get now key).1 ≠ none)
    ∧ (c.has now key).2.hits = c.hits
    ∧ (c.has now key).2.misses = c.misses := by
  cases hm : mapGet key c.cache with
  | none => simp [FrontendCache.has, FrontendCache.get, hm]
  | some item =>
    by_cases hex : now - item.timestamp > item.ttl
    · simp [FrontendCache.has, FrontendCache.get, hm, hex]
    · simp [FrontendCache.has, FrontendCache.get, hm, hex]

/-- The client cache after `set("k", 1, ttl := 100)` at time `0` followed
by `set("k", 2, ttl := 1000)` at time `50` (claim C10). -/
def c10state : FrontendCache Nat :=
  (FrontendCache.empty.set 0 "k" 1 100).set 50 "k" 2 1000

/-- C10: every `set(key, _, ttl)` appends a pending deletion of `key` at
`now + ttl` whose handle is never kept (so no later operation cancels
it); a firing timer deletes the key unconditionally.  Consequently, after
overwriting `"k"` at time `50` with `ttl = 1000`, the timer from the
first `set` (due at `100`) is still pending, and once it fires, `get` at
time `200` already returns absent although `200 < 50 + 1000`. -/
theorem stale_timer_deletes_overwritten_entry :
    (∀ (c : FrontendCache Nat) (now : Nat) (k : String) (v t : Nat),
        (c.set now k v t).timers = c.timers ++ [(now + t, k)])
    ∧ (∀ (c : FrontendCache Nat) (ft : Nat × String),
        mapGet ft.2 (c.fireTimer ft).cache = none)
    ∧ (100, "k") ∈ c10state.timers
    ∧ mapGet "k" c10state.cache = some ⟨2, 50, 1000⟩
    ∧ ((c10state.fireTimer (100, "k")).get 200 "k").1 = none
    ∧ 200 < 50 + 1000 := by
  refine ⟨fun c now k v t => rfl, fun c ft => mapGet_mapDelete ft.2 c.cache,
    by decide, by decide, by decide, by omega⟩

/-! Section: debounce collapse (claim C7) -/

/-- C7: for any time-sorted burst of calls to the debounced function in
which every call arrives strictly within `wait` of its predecessor (one
quiescence window), the underlying function is invoked exactly once, at
`wait` after the last call, with the last call's arguments: every earlier
pending invocation is cancelled by the next call. -/
theorem debounce_collapse {A : Type} (wait : Nat) (p : Nat × A)
    (cs : List (Nat × A))
    (h : List.Chain' (fun a b => b.1 < a.1 + wait) (p :: cs)) :
    debounceRun wait (p :: cs) =
      [(((p :: cs).getLast (List.cons_ne_nil p cs)).1 + wait,
        ((p :: cs).getLast (List.cons_ne_nil p cs)).2)] := by
  induction cs generalizing p with
  | nil => simp [debounceRun]
  | cons q rest ih =>
    have hpq : q.1 < p.1 + wait := (List.chain'_cons.mp h).1
    have h' : List.Chain' (fun a b => b.1 < a.1 + wait) (q :: rest) :=
      (List.chain'_cons.mp h).2
    have hlast : (p :: q :: rest).getLast (List.cons_ne_nil p (q :: rest)) =
        (q :: rest).getLast (List.cons_ne_nil q rest) :=
      List.getLast_cons (List.cons_ne_nil q rest)
    rw [hlast, ← ih q h']
    show (if q.1 < p.1 + wait then debounceRun wait (q :: rest)
      else (p.1 + wait, p.2) :: debounceRun wait (q :: rest)) =
      debounceRun wait (q :: rest)
    rw [if_pos hpq]

/-- C7 (witness): five calls with values `1..5` at times
`0, 10, 50, 100, 299`, all inside one 300 ms quiescence window, produce
exactly one invocation, at time `599`, with the final value `5`. -/
theorem debounce_collapse_witness :
    debounceRun 300 [(0, 1), (10, 2), (50, 3), (100, 4), (299, 5)] =
      [(599, (5 : Nat))] := by
  have h := debounce_collapse 300 (0, 1) [(10, 2), (50, 3), (100, 4), (299, 5)]
    (by norm_num [List.chain'_cons])
  simpa using h

/-! Section: cascade reset (claim C8) -/

/-- C8: from any client state, applying the (debounced) vertical update
with a non-empty value different from the current vertical sets the
vertical, resets the `business` and `site` filter values to empty, leaves
the year/month/date branch alone, and leaves the option-set cache
completely unchanged — entries keyed by the old vertical are merely
unreachable, because the business query key built from the new state
differs from every key built from the old vertical. -/
theorem cascade_reset_keeps_cache (s : ClientState) (v : String)
    (_hv : v ≠ "") (hne : v ≠ s.filters.vertical) :
    (debouncedUpdateBusinessEffect s v).filters.vertical = v
    ∧ (debouncedUpdateBusinessEffect s v).filters.business = ""
    ∧ (debouncedUpdateBusinessEffect s v).filters.site = ""
    ∧ (debouncedUpdateBusinessEffect s v).filters.year = s.filters.year
    ∧ (debouncedUpdateBusinessEffect s v).cache = s.cache
    ∧ ∀ bucketId userId : Nat,
        businessQueryKey bucketId userId
            (debouncedUpdateBusinessEffect s v).filters.vertical ≠
          businessQueryKey bucketId userId s.filters.vertical := by
  unfold debouncedUpdateBusinessEffect
  rw [if_pos hne]
  refine ⟨rfl, rfl, rfl, rfl, rfl, fun bucketId userId => ?_⟩
  simp [businessQueryKey, hne]

/-- C8 (witness): the theorem applied to a state with
`vertical = "Energy"`, `business = "X"`, `site = "S1"` and a cached
business option set for the old vertical, updating the vertical to
`"Infrastructure"`. -/
theorem cascade_reset_keeps_cache_witness :
    (debouncedUpdateBusinessEffect
        ⟨⟨"Energy", "X", "S1", "2024", "1", ""⟩,
          ⟨[("business_1_1_Energy", ⟨["X"], 0, 300000⟩)], 0, 0, []⟩⟩
        "Infrastructure").filters.business = ""
    ∧ (debouncedUpdateBusinessEffect
        ⟨⟨"Energy", "X", "S1", "2024", "1", ""⟩,
          ⟨[("business_1_1_Energy", ⟨["X"], 0, 300000⟩)], 0, 0, []⟩⟩
        "Infrastructure").cache =
      ⟨[("business_1_1_Energy", ⟨["X"], 0, 300000⟩)], 0, 0, []⟩ := by
  have h := cascade_reset_keeps_cache
    ⟨⟨"Energy", "X", "S1", "2024", "1", ""⟩,
      ⟨[("business_1_1_Energy", ⟨["X"], 0, 300000⟩)], 0, 0, []⟩⟩
    "Infrastructure" (by decide) (by decide)
  exact ⟨h.2.1, h.2.2.2.2.1⟩

/-! Section: manual refresh (claim C5) -/

/-- Example two-layer cache state with a non-empty server cache, used to
refute claim C5. -/
def sysWithServerEntry : SystemState :=
  ⟨FrontendCache.empty,
    ⟨[("vertical_1_1", ["Energy"])], [("vertical_1_1", 600000)], 1000⟩⟩

/-- C5 (counterexample): the claim says the manual refresh clears both
cache layers and re-fetches every currently-relevant level including
`vertical` and `years`.  `refreshData` of `useDashboardData` re-fetches
only `business`, `site` and `months` — neither `vertical` nor `years` —
and leaves the server cache exactly as it was (still holding an entry). -/
theorem refresh_counterexample :
    Level.vertical ∉ (refreshData sysWithServerEntry).2
    ∧ Level.years ∉ (refreshData sysWithServerEntry).2
    ∧ (refreshData sysWithServerEntry).1.serverCache =
        sysWithServerEntry.serverCache
    ∧ (refreshData sysWithServerEntry).1.serverCache.cache ≠ [] := by
  refine ⟨by decide, by decide, rfl, by decide⟩

/-- C5 (amended): the manual refresh clears only the client cache layer
(the server cache is untouched — no clear path exists for it).
`refreshData` of `useDashboardData` re-fetches exactly `business`, `site`
and `months`, not `vertical` or `years`; the page-level `refreshAllData`
always re-fetches `vertical` and `years` (plus the currently-relevant
dependent levels) concurrently.  Each level's fetch completion updates
only that level's data/loading/cached slice, so one level's failure does
not affect the others. -/
theorem refresh_client_only :
    (∀ s : SystemState,
        (refreshData s).1.clientCache.cache = []
        ∧ (refreshData s).1.serverCache = s.serverCache
        ∧ (refreshData s).2 = [Level.business, Level.site, Level.months])
    ∧ (∀ f : FilterState,
        Level.vertical ∈ refreshAllLevels f ∧ Level.years ∈ refreshAllLevels f)
    ∧ (∀ (st : Level → LevelState) (l : Level)
        (outcome : Except String (List String × Bool)) (l2 : Level),
        l2 ≠ l → fetchDataStep st l outcome l2 = st l2) := by
  refine ⟨fun s => ⟨rfl, rfl, rfl⟩,
    fun f => ⟨by simp [refreshAllLevels], by simp [refreshAllLevels]⟩,
    fun st l outcome l2 h => by simp [fetchDataStep, h]⟩

/-- C5 (witness): the amended theorem applied to the example state, to
the empty filter state, and to a failing `business` fetch next to an
untouched `site` slice. -/
theorem refresh_client_only_witness :
    (refreshData sysWithServerEntry).1.clientCache.cache = []
    ∧ (refreshData sysWithServerEntry).2 =
        [Level.business, Level.site, Level.months]
    ∧ Level.vertical ∈ refreshAllLevels ⟨"", "", "", "", "", ""⟩
    ∧ Level.years ∈ refreshAllLevels ⟨"", "", "", "", "", ""⟩
    ∧ fetchDataStep (fun _ => ⟨["S1"], false, false⟩) Level.business
        (.error "HTTP 500") Level.site = ⟨["S1"], false, false⟩ :=
  ⟨(refresh_client_only.1 sysWithServerEntry).1,
   (refresh_client_only.1 sysWithServerEntry).2.2,
   (refresh_client_only.2.1 ⟨"", "", "", "", "", ""⟩).1,
   (refresh_client_only.2.1 ⟨"", "", "", "", "", ""⟩).2,
   refresh_client_only.2.2 (fun _ => ⟨["S1"], false, false⟩) Level.business
     (.error "HTTP 500") Level.site (by decide)⟩

/-! Section: the sentinel value "All" (claim C3) -/

/-- Example database for claim C3: one active vertical `"Energy"` with one
active business `"CoalCo"`, bucket 1 under group security, and no vertical
named `"All"`. -/
def dbAllSentinel : Db :=
  ⟨[⟨1, "Energy", "ACTIVE"⟩], [⟨10, "CoalCo", 1, "ACTIVE"⟩],
    [⟨1, "GROUP SECURITY"⟩], []⟩

/-- C3 (counterexample): the claim says a business-options request whose
vertical filter is `"All"` is answered with the unrestricted full business
list.  The handler's query matches `V.VNAME = @vertical` literally, so on
a database whose only vertical is `"Energy"` the request for `"All"`
returns the empty list, not the full list `["CoalCo"]`. -/
theorem sentinel_all_counterexample :
    activeBusinessesForVertical dbAllSentinel "All" = []
    ∧ unrestrictedBusinessListSpec dbAllSentinel = ["CoalCo"]
    ∧ (getBusinessRoute CacheManager.empty 0 dbAllSentinel 1 1 "All").1 =
        .ok [] false
    ∧ activeBusinessesForVertical dbAllSentinel "All" ≠
        unrestrictedBusinessListSpec dbAllSentinel := by
  refine ⟨by decide, by decide, by decide, by decide⟩

/-- C3 (amended): the server-side query of the `getBusiness` handler
treats `"All"` as a literal vertical name — the result set is exactly the
active businesses whose vertical is literally named `"All"`, hence empty
whenever no vertical carries that name — and the client never issues a
business request for `vertical = "All"`, because the business query's
`enabled` flag is false for the sentinel. -/
theorem sentinel_all_literal_match (db : Db)
    (h : ∀ v ∈ db.verticals, v.vname ≠ "All") :
    activeBusinessesForVertical db "All" = []
    ∧ businessQueryEnabled "All" = false := by
  refine ⟨?_, by decide⟩
  have hfilter : db.businesses.filter (fun b =>
      decide (b.bustatus = "ACTIVE") &&
        db.verticals.any (fun v =>
          decide (v.vid = b.vid ∧ v.vname = "All"))) = [] := by
    rw [List.filter_eq_nil_iff]
    intro b _
    simp only [Bool.and_eq_true, decide_eq_true_eq, List.any_eq_true, not_and]
    rintro - ⟨v, hv, -, hname⟩
    exact h v hv hname
  rw [activeBusinessesForVertical, hfilter]
  rfl

/-- C3 (witness): the amended theorem applied to the example database,
whose only vertical is `"Energy"`. -/
theorem sentinel_all_literal_match_witness :
    activeBusinessesForVertical dbAllSentinel "All" = []
    ∧ businessQueryEnabled "All" = false :=
  sentinel_all_literal_match dbAllSentinel (by decide)

/-! Section: the 404 branch of the business handler (claim C4) -/

/-- C4: on the per-user scoping path (group security not active) and a
cache miss, the handler answers `404 {error: "No matching BUID found"}`
exactly when the user has no associated BUID row in `USERGROUPS`; with at
least one BUID it answers `200` with the per-user query result (never a
404 on this branch). -/
theorem business_404_no_buid (st : CacheManager (List String)) (now : Nat)
    (db : Db) (bucketId userId : Nat) (vertical : String)
    (hmiss : (st.get now (businessCacheKey bucketId userId vertical)).1 = none)
    (hgroup : isGroupSecurity db bucketId = false) :
    (userBuids db userId = [] →
      (getBusinessRoute st now db bucketId userId vertical).1 =
        .err 404 "No matching BUID found")
    ∧ (userBuids db userId ≠ [] →
      (getBusinessRoute st now db bucketId userId vertical).1 =
        .ok (perUserBusinessQuery db (userBuids db userId) vertical) false) := by
  constructor
  · intro hempty
    simp [getBusinessRoute, hmiss, hgroup, hempty]
  · intro hne
    have hlen : (userBuids db userId).length > 0 :=
      List.length_pos.mpr hne
    simp [getBusinessRoute, hmiss, hgroup, hlen]

/-- Example database for claim C4: bucket 2 is not under group security;
user 99 has no `USERGROUPS` rows while user 7 is associated with BUID 10,
the active business `"CoalCo"` under the vertical `"Energy"`. -/
def dbPerUser : Db :=
  ⟨[⟨1, "Energy", "ACTIVE"⟩], [⟨10, "CoalCo", 1, "ACTIVE"⟩],
    [⟨2, "USER SECURITY"⟩], [⟨7, 10⟩]⟩

/-- C4 (witness): on the example database, the request for user 99 (no
`USERGROUPS` rows) yields the 404, and the request for user 7 (one BUID)
yields a 200 with `["CoalCo"]`. -/
theorem business_404_no_buid_witness :
    (getBusinessRoute CacheManager.empty 0 dbPerUser 2 99 "Energy").1 =
      .err 404 "No matching BUID found"
    ∧ (getBusinessRoute CacheManager.empty 0 dbPerUser 2 7 "Energy").1 =
      .ok ["CoalCo"] false := by
  have h99 := (business_404_no_buid CacheManager.empty 0 dbPerUser 2 99
    "Energy" (by decide) (by decide)).1 (by decide)
  have h7 := (business_404_no_buid CacheManager.empty 0 dbPerUser 2 7
    "Energy" (by decide) (by decide)).2 (by decide)
  refine ⟨h99, ?_⟩
  rw [h7]
  decide

/-! Section: further `Map` lemmas, for the capacity bound (claim C2) -/


theorem mem_mapKeys_iff_any {β : Type} (k : String) (l : List (String × β)) :
    l.any (fun p => decide (p.1 = k)) = true ↔ k ∈ mapKeys l := by
  simp only [List.any_eq_true, decide_eq_true_eq, mapKeys, List.mem_map]

theorem mapKeys_mapSet_present {β : Type} {k : String} (v : β)
    {l : List (String × β)} (h : k ∈ mapKeys l) :
    mapKeys (mapSet k v l) = mapKeys l := by
  rw [mapSet, if_pos ((mem_mapKeys_iff_any k l).mpr h)]
  simp only [mapKeys, List.map_map]
  apply List.map_congr_left
  intro p _
  by_cases hp : p.1 = k
  · simp [Function.comp, hp]
  · simp [Function.comp, hp]

theorem mapKeys_mapSet_absent {β : Type} {k : String} (v : β)
    {l : List (String × β)} (h : k ∉ mapKeys l) :
    mapKeys (mapSet k v l) = mapKeys l ++ [k] := by
  rw [mapSet, if_neg]
  · simp [mapKeys]
  · intro hc
    exact h ((mem_mapKeys_iff_any k l).mp hc)

theorem length_mapKeys {β : Type} (l : List (String × β)) :
    (mapKeys l).length = l.length := by
  simp [mapKeys]

theorem mapKeys_mapDelete {β : Type} (k : String) (l : List (String × β)) :
    mapKeys (mapDelete k l) = (mapKeys l).filter (fun a => decide (a ≠ k)) := by
  induction l with
  | nil => rfl
  | cons p rest ih =>
    by_cases hp : p.1 = k
    · simpa [mapDelete, mapKeys, List.filter_cons, hp] using ih
    · simpa [mapDelete, mapKeys, List.filter_cons, hp] using ih

theorem mapDelete_of_not_mem {β : Type} {k : String} {l : List (String × β)}
    (h : k ∉ mapKeys l) : mapDelete k l = l := by
  rw [mapDelete, List.filter_eq_self]
  intro p hp
  simp only [decide_eq_true_eq]
  intro hc
  exact h (hc ▸ List.mem_map_of_mem Prod.fst hp)

theorem length_mapDelete_of_nodup {β : Type} {k : String}
    {l : List (String × β)} (hnd : (mapKeys l).Nodup) (h : k ∈ mapKeys l) :
    (mapDelete k l).length = l.length - 1 := by
  induction l with
  | nil => cases h
  | cons p rest ih =>
    simp only [mapKeys, List.map_cons, List.nodup_cons] at hnd
    by_cases hp : p.1 = k
    · have hnot : k ∉ mapKeys rest := hp ▸ hnd.1
      have hdel : mapDelete k (p :: rest) = mapDelete k rest := by
        simp [mapDelete, List.filter_cons, hp]
      rw [hdel, mapDelete_of_not_mem hnot]
      simp
    · have hmem : k ∈ mapKeys rest := by
        have h' : p.1 = k ∨ k ∈ mapKeys rest := by
          simpa [mapKeys, eq_comm] using h
        rcases h' with h1 | h2
        · exact absurd h1 hp
        · exact h2
      have hlen : 1 ≤ rest.length := by
        cases rest with
        | nil => cases hmem
        | cons q t => simp
      have hdel : mapDelete k (p :: rest) = p :: mapDelete k rest := by
        simp [mapDelete, List.filter_cons, hp]
      rw [hdel]
      simp only [List.length_cons]
      rw [ih hnd.2 hmem]
      omega

theorem nodup_mapKeys_mapDelete {β : Type} (k : String)
    {l : List (String × β)} (hnd : (mapKeys l).Nodup) :
    (mapKeys (mapDelete k l)).Nodup := by
  rw [mapKeys_mapDelete]
  exact hnd.filter _

theorem length_mapSet_present {β : Type} {k : String} (v : β)
    {l : List (String × β)} (h : k ∈ mapKeys l) :
    (mapSet k v l).length = l.length := by
  have hc := congrArg List.length (mapKeys_mapSet_present v h)
  simpa [length_mapKeys] using hc

theorem length_mapSet_absent {β : Type} {k : String} (v : β)
    {l : List (String × β)} (h : k ∉ mapKeys l) :
    (mapSet k v l).length = l.length + 1 := by
  have hc := congrArg List.length (mapKeys_mapSet_absent v h)
  simpa [length_mapKeys] using hc

theorem nodup_mapKeys_mapSet {β : Type} (k : String) (v : β)
    {l : List (String × β)} (hnd : (mapKeys l).Nodup) :
    (mapKeys (mapSet k v l)).Nodup := by
  by_cases h : k ∈ mapKeys l
  · rw [mapKeys_mapSet_present v h]; exact hnd
  · rw [mapKeys_mapSet_absent v h]
    simpa [List.nodup_append] using ⟨hnd, h⟩

/-- What a full-cache `set` computes: with `head? = some p` and the cache
at least at capacity, the earliest-inserted key `p.1` is deleted before
the new entry is stored. -/
theorem cmSet_full_cache {V : Type} {c : CacheManager V} {p : String × V}
    (hhead : c.cache.head? = some p) (hfull : c.cache.length ≥ c.maxSize)
    (now : Nat) (key : String) (value : V) (ttl : Nat) :
    (c.set now key value ttl).cache = mapSet key value (mapDelete p.1 c.cache)
    ∧ (c.set now key value ttl).maxSize = c.maxSize := by
  simp only [CacheManager.set, if_pos hfull, hhead]
  exact ⟨trivial, trivial⟩

/-- What a below-capacity `set` computes: no eviction. -/
theorem cmSet_notfull_cache {V : Type} {c : CacheManager V}
    (hfull : ¬ c.cache.length ≥ c.maxSize)
    (now : Nat) (key : String) (value : V) (ttl : Nat) :
    (c.set now key value ttl).cache = mapSet key value c.cache
    ∧ (c.set now key value ttl).maxSize = c.maxSize := by
  simp only [CacheManager.set, if_neg hfull]
  exact ⟨trivial, trivial⟩

/-- The data-structure invariant of the server cache: its insertion-order
key list is duplicate-free (a JS `Map` has unique keys) and its size is
within `maxSize`, which is positive (the constructor fixes it to 1000). -/
def CMInv {V : Type} (c : CacheManager V) : Prop :=
  (mapKeys c.cache).Nodup ∧ c.cache.length ≤ c.maxSize ∧ 1 ≤ c.maxSize

theorem cmInv_set {V : Type} {c : CacheManager V} (hc : CMInv c)
    (now : Nat) (key : String) (value : V) (ttl : Nat) :
    CMInv (c.set now key value ttl) := by
  obtain ⟨hnd, hlen, hpos⟩ := hc
  by_cases hfull : c.cache.length ≥ c.maxSize
  · have hne : c.cache ≠ [] := by
      intro he
      rw [he] at hfull
      simp only [List.length_nil] at hfull
      omega
    obtain ⟨p, rest, hpr⟩ := List.exists_cons_of_ne_nil hne
    have hhead : c.cache.head? = some p := by rw [hpr]; rfl
    obtain ⟨hcache, hmax⟩ := cmSet_full_cache hhead hfull now key value ttl
    have hmem : p.1 ∈ mapKeys c.cache := by
      rw [hpr, mapKeys]
      exact List.mem_map_of_mem Prod.fst (List.mem_cons_self p rest)
    have hnd' : (mapKeys (mapDelete p.1 c.cache)).Nodup :=
      nodup_mapKeys_mapDelete p.1 hnd
    have hlen' : (mapDelete p.1 c.cache).length = c.cache.length - 1 :=
      length_mapDelete_of_nodup hnd hmem
    have h1 : 1 ≤ c.cache.length := by
      rw [hpr]; simp
    refine ⟨?_, ?_, ?_⟩
    · rw [hcache]
      exact nodup_mapKeys_mapSet key value hnd'
    · rw [hcache, hmax]
      by_cases hk : key ∈ mapKeys (mapDelete p.1 c.cache)
      · rw [length_mapSet_present value hk]
        omega
      · rw [length_mapSet_absent value hk]
        omega
    · rw [hmax]; exact hpos
  · obtain ⟨hcache, hmax⟩ := cmSet_notfull_cache hfull now key value ttl
    refine ⟨?_, ?_, ?_⟩
    · rw [hcache]
      exact nodup_mapKeys_mapSet key value hnd
    · rw [hcache, hmax]
      by_cases hk : key ∈ mapKeys c.cache
      · rw [length_mapSet_present value hk]
        omega
      · rw [length_mapSet_absent value hk]
        omega
    · rw [hmax]; exact hpos

theorem length_mapDelete_le {β : Type} (k : String) (l : List (String × β)) :
    (mapDelete k l).length ≤ l.length :=
  List.length_filter_le _ _

theorem cmInv_get {V : Type} {c : CacheManager V} (hc : CMInv c)
    (now : Nat) (key : String) : CMInv (c.get now key).2 := by
  obtain ⟨hnd, hlen, hpos⟩ := hc
  cases hm : mapGet key c.cache with
  | none =>
    have hid : (c.get now key).2 = c := by simp [CacheManager.get, hm]
    rw [hid]; exact ⟨hnd, hlen, hpos⟩
  | some v =>
    cases ht : mapGet key c.ttl with
    | none =>
      have hid : (c.get now key).2 = c := by simp [CacheManager.get, hm, ht]
      rw [hid]; exact ⟨hnd, hlen, hpos⟩
    | some expiry =>
      by_cases hex : now > expiry
      · have hid : (c.get now key).2 =
            { c with cache := mapDelete key c.cache,
                     ttl := mapDelete key c.ttl } := by
          simp [CacheManager.get, hm, ht, hex]
        rw [hid]
        exact ⟨nodup_mapKeys_mapDelete key hnd,
          le_trans (length_mapDelete_le key c.cache) hlen, hpos⟩
      · have hid : (c.get now key).2 = c := by
          simp [CacheManager.get, hm, ht, hex]
        rw [hid]; exact ⟨hnd, hlen, hpos⟩

theorem cmInv_delete {V : Type} {c : CacheManager V} (hc : CMInv c)
    (key : String) : CMInv (c.delete key) := by
  obtain ⟨hnd, hlen, hpos⟩ := hc
  exact ⟨nodup_mapKeys_mapDelete key hnd,
    le_trans (length_mapDelete_le key c.cache) hlen, hpos⟩

theorem cmInv_clear {V : Type} {c : CacheManager V} (hc : CMInv c) :
    CMInv c.clear := by
  obtain ⟨-, -, hpos⟩ := hc
  exact ⟨List.nodup_nil, by simp [CacheManager.clear], hpos⟩

theorem cmInv_cleanup {V : Type} {c : CacheManager V} (hc : CMInv c)
    (now : Nat) : CMInv (c.cleanup now) := by
  obtain ⟨hnd, hlen, hpos⟩ := hc
  have hsub : (c.cleanup now).cache.Sublist c.cache :=
    List.filter_sublist c.cache
  refine ⟨?_, le_trans hsub.length_le hlen, hpos⟩
  exact List.Nodup.sublist (hsub.map Prod.fst) hnd

/-- Every reachable server-cache state satisfies the invariant. -/
theorem cmReachable_inv {V : Type} {c : CacheManager V}
    (h : CMReachable c) : CMInv c := by
  induction h with
  | init =>
    exact ⟨List.nodup_nil, by simp [CacheManager.empty],
      by simp [CacheManager.empty]⟩
  | set _ ih => exact cmInv_set ih _ _ _ _
  | get _ ih => exact cmInv_get ih _ _
  | delete _ ih => exact cmInv_delete ih _
  | clear _ ih => exact cmInv_clear ih
  | cleanup _ ih => exact cmInv_cleanup ih _

/-- Example full server cache for the capacity-bound witness: one entry
under key `"x"`, `maxSize = 1` (so the cache is at capacity). -/
def cmFull : CacheManager (List String) := ⟨[("x", ["A"])], [("x", 100)], 1⟩

/-- C2: every server-cache state reachable from the constructor satisfies
`size ≤ maxSize`; and a `set` of a fresh key performed on a cache with
duplicate-free keys at exactly `size = maxSize` evicts exactly one
existing entry — the earliest-inserted one, which is the head of the
insertion-order key list (a JS `Map.set` of an existing key keeps its
original position, so the head is the oldest insertion, independent of
access recency) — before inserting the new entry, leaving
`size = maxSize`: afterwards the keys are exactly the new key together
with every old key other than the evicted head. -/
theorem cache_capacity_bound :
    (∀ (V : Type) (c : CacheManager V), CMReachable c →
        c.cache.length ≤ c.maxSize)
    ∧ (∀ (V : Type) (c : CacheManager V) (p : String × V),
        (mapKeys c.cache).Nodup → c.cache.head? = some p →
        c.cache.length = c.maxSize →
        ∀ (now : Nat) (key : String) (value : V) (ttl : Nat),
          key ∉ mapKeys c.cache →
          ((c.set now key value ttl).cache.length = c.maxSize
           ∧ key ∈ mapKeys (c.set now key value ttl).cache
           ∧ p.1 ∉ mapKeys (c.set now key value ttl).cache
           ∧ ∀ a, a ∈ mapKeys (c.set now key value ttl).cache ↔
               (a = key ∨ (a ∈ mapKeys c.cache ∧ a ≠ p.1)))) := by
  constructor
  · intro V c h
    exact (cmReachable_inv h).2.1
  · intro V c p hnd hhead hsize now key value ttl hkey
    have hfull : c.cache.length ≥ c.maxSize := le_of_eq hsize.symm
    obtain ⟨hcache, hmax⟩ := cmSet_full_cache hhead hfull now key value ttl
    have hpmem : p ∈ c.cache := by
      cases hc : c.cache with
      | nil => rw [hc] at hhead; cases hhead
      | cons q t =>
        rw [hc] at hhead
        simp only [List.head?_cons, Option.some.injEq] at hhead
        rw [hhead]
        exact List.mem_cons_self p t
    have hmem : p.1 ∈ mapKeys c.cache := List.mem_map_of_mem Prod.fst hpmem
    have hne : c.cache ≠ [] := by
      intro he
      rw [he] at hpmem
      cases hpmem
    have h1 : 1 ≤ c.cache.length := List.length_pos.mpr hne
    have hkeydel : key ∉ mapKeys (mapDelete p.1 c.cache) := by
      rw [mapKeys_mapDelete]
      intro hk
      exact hkey (List.mem_of_mem_filter hk)
    have hkeys : mapKeys (c.set now key value ttl).cache =
        (mapKeys c.cache).filter (fun a => decide (a ≠ p.1)) ++ [key] := by
      rw [hcache, mapKeys_mapSet_absent value hkeydel, mapKeys_mapDelete]
    refine ⟨?_, ?_, ?_, ?_⟩
    · rw [hcache, length_mapSet_absent value hkeydel,
        length_mapDelete_of_nodup hnd hmem]
      omega
    · rw [hkeys]
      simp
    · rw [hkeys]
      simp only [List.mem_append, List.mem_filter, List.mem_singleton,
        decide_eq_true_eq]
      rintro (⟨-, hc⟩ | hc)
      · exact hc rfl
      · exact hkey (hc ▸ hmem)
    · intro a
      rw [hkeys]
      simp only [List.mem_append, List.mem_filter, List.mem_singleton,
        decide_eq_true_eq]
      tauto

/-- C2 (witness): the first part applied to the freshly constructed
cache; the second part applied to `cmFull` (one entry `"x"`, capacity 1)
with the fresh key `"y"`: the insertion keeps size at capacity, `"y"` is
stored, and the oldest key `"x"` is evicted. -/
theorem cache_capacity_bound_witness :
    (CacheManager.empty (V := List String)).cache.length ≤
      (CacheManager.empty (V := List String)).maxSize
    ∧ (cmFull.set 0 "y" ["B"] 300000).cache.length = cmFull.maxSize
    ∧ "y" ∈ mapKeys (cmFull.set 0 "y" ["B"] 300000).cache
    ∧ "x" ∉ mapKeys (cmFull.set 0 "y" ["B"] 300000).cache
    ∧ ("x" ∈ mapKeys (cmFull.set 0 "y" ["B"] 300000).cache ↔
        ("x" = "y" ∨ ("x" ∈ mapKeys cmFull.cache ∧ "x" ≠ "x"))) := by
  have h2 := cache_capacity_bound.2 (List String) cmFull ("x", ["A"])
    (by decide) rfl rfl 0 "y" ["B"] 300000 (by decide)
  exact ⟨cache_capacity_bound.1 (List String) CacheManager.empty
    CMReachable.init, h2.1, h2.2.1, h2.2.2.1, h2.2.2.2 "x"⟩

end Dashboard
